import Mathlib

/-! The MySQL source adapter (`driver.go`).

A shallow embedding of `driver.go` and the properties of its four operations
`Init`, `Scan`, `VendorSpecificCasting` and `Describe`.

* Go strings are byte sequences (`GoString`).
* Go maps are association lists read through `mapGet` and written through
  `mapSet`; an assignment to an existing key replaces its value and an
  assignment to a new key adds an entry.
* The database behind the connection handle is a record of responses (`DB`),
  and every call the driver makes on the handle is appended to a trace of
  `Event`s, from which the open statements and cursors are counted.
-/

namespace MySQLDriver

/-! ## Strings -/

/-- A Go `byte`. -/
abbrev Byte := UInt8

/-- A Go `string`: an immutable sequence of bytes. -/
abbrev GoString := List Byte

/-- The bytes (UTF-8) of a string literal of the source. -/
def str (s : String) : GoString := s.data.flatMap String.utf8EncodeChar

/-- The byte `=`. -/
def EQ : Byte := 61

/-- The backtick byte. -/
def BT : Byte := 96

/-- Puts a byte in front of the first piece of a split. -/
def consHead (c : Byte) : List GoString → List GoString
  | [] => [[c]]
  | p :: ps => (c :: p) :: ps

/-- Go `strings.Split(s, sep)` for a one-byte separator (the driver only calls it
with `"="`): the pieces of `s` between the occurrences of `sep`, so that a string
with `n` separators gives `n + 1` pieces and the empty string gives one empty
piece. -/
def stringsSplit (sep : Byte) : GoString → List GoString
  | [] => [[]]
  | c :: cs => if c = sep then [] :: stringsSplit sep cs else consHead c (stringsSplit sep cs)

/-- Go `strings.Join(elems, sep)`. -/
def stringsJoin : List GoString → GoString → GoString
  | [], _ => []
  | [a], _ => a
  | a :: b :: rest, sep => a ++ sep ++ stringsJoin (b :: rest) sep

/-! ## Maps -/

/-- A Go `map[κ]ν` as an association list. -/
abbrev GoMap (κ ν : Type) := List (κ × ν)

/-- The map read `m[k]` (with the comma-ok result as an `Option`). -/
def mapGet {κ ν : Type} [DecidableEq κ] : GoMap κ ν → κ → Option ν
  | [], _ => none
  | (k', v') :: rest, k => if k' = k then some v' else mapGet rest k

/-- The map write `m[k] = v`. -/
def mapSet {κ ν : Type} [DecidableEq κ] : GoMap κ ν → κ → ν → GoMap κ ν
  | [], k, v => [(k, v)]
  | (k', v') :: rest, k, v => if k' = k then (k, v) :: rest else (k', v') :: mapSet rest k v

/-- The keys of a map. -/
def mapKeys {κ ν : Type} (m : GoMap κ ν) : List κ := m.map Prod.fst

/-! ## Errors, events and the database handle -/

/-- A Go `error` value. -/
structure Error where
  msg : String
  deriving DecidableEq, Repr

/-- The struct `tableDescriptionRow` (lines 13-19). -/
structure tableDescriptionRow where
  Catalog : GoString
  SchemaName : GoString
  TableName : GoString
  ColumnName : GoString
  IsPrimary : Bool
  deriving DecidableEq, Repr

/-- A value of a row as the client library decodes it. A float is carried as its
64-bit pattern; the driver never computes with it. -/
inductive Value where
  | null
  | bool (b : Bool)
  | int (i : Int)
  | float (bits : Nat)
  | text (s : GoString)
  | bytes (b : List Byte)
  deriving DecidableEq, Repr

/-- A materialized row, `map[string]interface{}`. -/
abbrev Row := GoMap GoString Value

/-- The result cursor of the catalog query as `Describe` sees it: for every row
that `rows.Next()` delivers, the outcome of `rows.StructScan` on it, and the
value of `rows.Err()` once `rows.Next()` has returned false. -/
structure CatalogRows where
  rows : List (Except Error tableDescriptionRow)
  err : Option Error

/-- The `*sqlx.Rows` that `Scan` hands to its caller: the rows still to come. -/
structure Rows where
  pending : List Row
  deriving DecidableEq, Repr

/-- A prepared statement `*sqlx.Stmt`: what `stmt.Queryx()` answers. -/
structure Stmt where
  queryx : Except Error Rows

/-- The handle `*sqlx.DB`: what the server answers to `Queryx(query)` and to
`Preparex(query)`. -/
structure DB where
  queryx : GoString → Except Error CatalogRows
  preparex : GoString → Except Error Stmt

/-- The receiver `MySQL` (lines 21-23); `none` is the nil connection. -/
structure MySQL where
  Connection : Option DB

/-- A call made on the database handle; `ok` tells whether it succeeded. -/
inductive Event where
  | dbQueryx (query : GoString) (ok : Bool)
  | rowsNext (more : Bool)
  | rowsStructScan (ok : Bool)
  | rowsErr
  | rowsClose
  | dbPreparex (query : GoString) (ok : Bool)
  | stmtQueryx (ok : Bool)
  | stmtClose
  deriving DecidableEq, Repr

/-- The calls of one run, in order. -/
abbrev Trace := List Event

/-- The statements prepared successfully. -/
def stmtsOpened (tr : Trace) : Nat :=
  tr.countP (fun e => match e with | .dbPreparex _ true => true | _ => false)

/-- The statements still open at the end of a trace. -/
def openStmts (tr : Trace) : Nat := stmtsOpened tr - tr.count .stmtClose

/-- The cursors opened. -/
def cursorsOpened (tr : Trace) : Nat :=
  tr.countP (fun e => match e with
    | .dbQueryx _ true => true
    | .stmtQueryx true => true
    | _ => false)

/-- The cursors still open at the end of a trace. -/
def openCursors (tr : Trace) : Nat := cursorsOpened tr - tr.count .rowsClose

/-- The texts handed to `Preparex`. -/
def preparedTexts (tr : Trace) : List GoString :=
  tr.filterMap (fun e => match e with | .dbPreparex q _ => some q | _ => none)

/-! ## Init (lines 25-51) -/

/-- The struct `domain.Config`, the fields `Init` reads. -/
structure Config where
  Hostname : GoString
  Port : GoString
  Username : GoString
  Password : GoString
  Database : GoString
  ExtraOptions : List GoString
  deriving DecidableEq, Repr

/-- The struct `mysql.Config`, the fields `Init` sets. -/
structure MysqlConfig where
  User : GoString
  Passwd : GoString
  DBName : GoString
  Net : GoString
  Addr : GoString
  Params : GoMap GoString GoString
  deriving DecidableEq, Repr

/-- The body of the option loop (lines 36-40) for one option. -/
def optionStep (params : GoMap GoString GoString) (option : GoString) :
    GoMap GoString GoString :=
  let splitEq := stringsSplit EQ option
  if splitEq.length ≠ 2 then params
  else mapSet params (splitEq.getD 0 []) (splitEq.getD 1 [])

/-- The option loop (lines 35-41). -/
def optionLoop (options : List GoString) (params : GoMap GoString GoString) :
    GoMap GoString GoString :=
  options.foldl optionStep params

/-- The `mysql.Config` that `Init` builds (lines 26-41). -/
def initConfig (c : Config) : MysqlConfig :=
  { User := c.Username
    Passwd := c.Password
    DBName := c.Database
    Net := str "tcp"
    Addr := c.Hostname ++ str ":" ++ c.Port
    Params := optionLoop c.ExtraOptions [] }

/-- The method `Init`: `connect` is `sqlx.Connect("mysql", config.FormatDSN())` as a
function of the configuration. Returns the receiver after the call and the
error. -/
def Init (connect : MysqlConfig → Except Error DB) (m : MySQL) (c : Config) :
    MySQL × Option Error :=
  match connect (initConfig c) with
  | .error err => (m, some err)
  | .ok db => ({ Connection := some db }, none)

/-! ## Scan (lines 53-75) -/

/-- The struct `domain.Table`, the fields `Scan` reads. -/
structure Table where
  SchemaName : GoString
  TableName : GoString
  Columns : List GoString
  deriving DecidableEq, Repr

/-- The function `mysqlColumnsToSQL` (lines 68-75): the loop appends every column
wrapped in backticks to `c`, and the result joins `c` with a comma and a space.
The verb `%s` of `fmt.Sprintf` inserts the bytes of its string operand
unchanged. -/
def mysqlColumnsToSQL (t : Table) : GoString :=
  let c := t.Columns.foldl (fun c column => c ++ [str "`" ++ column ++ str "`"]) []
  stringsJoin c (str ", ")

/-- The query text of `Scan` (line 54): `fmt.Sprintf` fills the three `%s` of the
format with `mysqlColumnsToSQL(t)`, `t.SchemaName` and `t.TableName`; the format
puts `SELECT ` before the first, ` FROM ` and a backtick before the second, a
backtick, a dot and a backtick before the third, and a backtick after it. -/
def scanQuery (t : Table) : GoString :=
  str "SELECT " ++ mysqlColumnsToSQL t ++ str " FROM `" ++ t.SchemaName ++ str "`.`"
    ++ t.TableName ++ str "`"

/-- The method `Scan` on a connected receiver (`db` is `m.Connection`): the two
results of the Go function and the calls made on the handle. The debug log line
(line 55) has no effect on either. -/
def Scan (db : DB) (t : Table) : (Option Rows × Option Error) × Trace :=
  let query := scanQuery t
  match db.preparex query with
  | .error err => ((none, some err), [.dbPreparex query false])
  | .ok stmt =>
    match stmt.queryx with
    | .error err => ((none, some err), [.dbPreparex query true, .stmtQueryx false])
    | .ok rows => ((some rows, none), [.dbPreparex query true, .stmtQueryx true])

/-! ## VendorSpecificCasting (lines 77-86) -/

/-- The body of the range loop (lines 81-84) at key `k`: `v` is the value the
map holds for `k` when the loop reaches it. -/
def castStep (row : Row) (k : GoString) : Row :=
  match mapGet row k with
  | some (.bytes b) => mapSet row k (.text b)
  | _ => row

/-- The method `VendorSpecificCasting`: the range loop visits the keys of the
map in an order that Go leaves unspecified, given here as `order`. Returns the
row after the in-place update. -/
def VendorSpecificCasting (order : List GoString) (row : Row) : Row :=
  order.foldl castStep row

/-- The conversion of one value that the specification describes: a byte
sequence becomes the text of the same bytes, any other value stays. -/
def normalizeValue : Value → Value
  | .bytes b => .text b
  | v => v

/-! ## Describe (lines 88-117) -/

/-- The struct `domain.Column`. -/
structure Column where
  Name : GoString
  Schema : GoString
  Table : GoString
  IsPrimaryKey : Bool
  deriving DecidableEq, Repr

/-- Modelled from the spec: the type `domain.Description` of the imported package
`sqlsource/domain`, whose source is not part of the repository. The
specification describes it as an aggregate mapping from (schema, table) to an
ordered collection of Column descriptors. -/
abbrev Description := GoMap (GoString × GoString) (List Column)

/-- Modelled from the spec: `domain.NewDescription()`, the empty Description. -/
def NewDescription : Description := []

/-- Modelled from the spec: `Description.AddColumn`, which appends one descriptor
to the collection of its (schema, table). -/
def AddColumn (d : Description) (c : Column) : Description :=
  mapSet d (c.Schema, c.Table) ((mapGet d (c.Schema, c.Table)).getD [] ++ [c])

/-- The descriptors a Description holds for (schema, table). -/
def columnsOf (d : Description) (schema table : GoString) : List Column :=
  (mapGet d (schema, table)).getD []

/-- The number of descriptors a Description holds. -/
def descriptorCount (d : Description) : Nat := (d.map (fun e => e.2.length)).sum

/-- The catalog query text of `Describe` (lines 89-93). -/
def describeQuery : GoString :=
  str "
        SELECT table_schema, table_name, column_name, CASE column_key WHEN 'PRI' THEN true ELSE false END as is_primary_key
        FROM information_schema.columns
        WHERE table_schema = DATABASE()
    "

/-- The descriptor that line 109 builds from a decoded row. -/
def toColumn (row : tableDescriptionRow) : Column :=
  { Name := row.ColumnName, Schema := row.SchemaName, Table := row.TableName,
    IsPrimaryKey := row.IsPrimary }

/-- The loop of `Describe` and the check after it (lines 104-116), over the rows
the cursor still has to deliver. -/
def describeLoop (res : Description) (cursorErr : Option Error) :
    List (Except Error tableDescriptionRow) → Trace →
    (Option Description × Option Error) × Trace
  | [], tr =>
    match cursorErr with
    | some err => ((none, some err), tr ++ [.rowsNext false, .rowsErr])
    | none => ((some res, none), tr ++ [.rowsNext false, .rowsErr])
  | scanned :: rest, tr =>
    match scanned with
    | .error err => ((none, some err), tr ++ [.rowsNext true, .rowsStructScan false])
    | .ok row =>
      describeLoop (AddColumn res (toColumn row)) cursorErr rest
        (tr ++ [.rowsNext true, .rowsStructScan true])

/-- The method `Describe` on a connected receiver (`db` is `m.Connection`): the
two results of the Go function and the calls made on the handle. The deferred
`rows.Close()` (line 102) runs after the result is fixed, as the last call
before control returns. -/
def Describe (db : DB) : (Option Description × Option Error) × Trace :=
  let res := NewDescription
  match db.queryx describeQuery with
  | .error err => ((none, some err), [.dbQueryx describeQuery false])
  | .ok rows =>
    let out := describeLoop res rows.err rows.rows [.dbQueryx describeQuery true]
    (out.1, out.2 ++ [.rowsClose])

/-- The calls `Describe` makes on the cursor between opening and closing it. -/
def isIterationEvent : Event → Bool
  | .rowsNext _ => true
  | .rowsStructScan _ => true
  | .rowsErr => true
  | _ => false

/-- The Description after adding one descriptor per decoded row, in order. -/
def addRows (rows : List tableDescriptionRow) (d : Description) : Description :=
  rows.foldl (fun acc row => AddColumn acc (toColumn row)) d

/-! ## Reading quoted identifiers back

The reading of MySQL backtick-quoted identifiers that the specification's
quoting requirement refers to: a quoted identifier starts at a backtick and ends
at the first backtick that is not doubled; a doubled backtick stands for one
backtick of the name. -/

/-- Reads the rest of a quoted identifier, after its opening backtick: the name
and the text after the closing backtick. -/
def readQuotedBody : GoString → Option (GoString × GoString)
  | [] => none
  | c :: cs =>
    if c = BT then
      match cs with
      | [] => some ([], [])
      | d :: ds =>
        if d = BT then (readQuotedBody ds).map (fun r => (BT :: r.1, r.2))
        else some ([], d :: ds)
    else (readQuotedBody cs).map (fun r => (c :: r.1, r.2))

/-- Reads one quoted identifier at the start of a text. -/
def readQuoted : GoString → Option (GoString × GoString)
  | [] => none
  | c :: cs => if c = BT then readQuotedBody cs else none

/-- Removes a leading literal, if the text starts with it. -/
def dropLeading : GoString → GoString → Option GoString
  | [], s => some s
  | _ :: _, [] => none
  | p :: ps, c :: cs => if p = c then dropLeading ps cs else none

/-- Reads a list of quoted identifiers separated by a comma and a space; every
identifier takes at least two bytes, so a fuel of the length of the text is
never used up. -/
def readColumns : Nat → GoString → Option (List GoString × GoString)
  | 0, _ => none
  | fuel + 1, s =>
    match readQuoted s with
    | none => none
    | some (name, rest) =>
      match dropLeading (str ", ") rest with
      | none => some ([name], rest)
      | some more => (readColumns fuel more).map (fun r => (name :: r.1, r.2))

/-- Reads a text of the form `SELECT <identifiers> FROM <identifier>.<identifier>`:
the column names, the schema name and the table name. -/
def readQuery (q : GoString) : Option (List GoString × GoString × GoString) :=
  match dropLeading (str "SELECT ") q with
  | none => none
  | some afterSelect =>
    match readColumns afterSelect.length afterSelect with
    | none => none
    | some (columns, afterColumns) =>
      match dropLeading (str " FROM ") afterColumns with
      | none => none
      | some afterFrom =>
        match readQuoted afterFrom with
        | none => none
        | some (schema, afterSchema) =>
          match dropLeading (str ".") afterSchema with
          | none => none
          | some afterDot =>
            match readQuoted afterDot with
            | none => none
            | some (table, []) => some (columns, schema, table)
            | some (_, _ :: _) => none

/-- The configuration of the specification's scenario. -/
def scenarioConfig : Config :=
  { Hostname := str "db.local", Port := str "3306", Username := str "svc", Password := str "x",
    Database := str "shop", ExtraOptions := [str "charset=utf8mb4", str "bogus"] }

/-- A configuration with two well-formed options for the same key. -/
def repeatedKeyConfig : Config :=
  { Hostname := str "db.local", Port := str "3306", Username := str "svc", Password := str "x",
    Database := str "shop", ExtraOptions := [str "a=1", str "a=2"] }

/-- A configuration with the malformed options of the claim among two well-formed
ones. -/
def mixedConfig : Config :=
  { Hostname := str "db.local", Port := str "3306", Username := str "svc", Password := str "x",
    Database := str "shop",
    ExtraOptions := [str "charset=utf8mb4", str "bogus", str "", str "a=b=c", str "=v"] }

/-- The table of the specification's scenario with both of its columns. -/
def ordersTable : Table :=
  { SchemaName := str "shop", TableName := str "orders", Columns := [str "id", str "note"] }

/-- A table whose column names hold a comma, a space and a reserved word. -/
def spacedTable : Table :=
  { SchemaName := str "my shop", TableName := str "order", Columns := [str "a, b", str "select"] }

/-- A table reference with one column whose name contains a backtick. -/
def backtickTable : Table :=
  { SchemaName := str "shop", TableName := str "orders", Columns := [str "id`, `secret"] }

/-- A handle that accepts every statement and returns no rows. -/
def acceptingDB : DB :=
  { queryx := fun _ => .ok { rows := [], err := none }
    preparex := fun _ => .ok { queryx := .ok { pending := [] } } }

/-- A handle behind which the server rejects every statement. -/
def rejectingDB : DB :=
  { queryx := fun _ => .error { msg := "Error 1064: syntax error" }
    preparex := fun _ => .error { msg := "Error 1064: syntax error" } }

/-- A handle on which preparing succeeds and executing fails, as when the
connection is lost between the two calls. -/
def lostConnectionDB : DB :=
  { queryx := fun _ => .error { msg := "invalid connection" }
    preparex := fun _ => .ok { queryx := .error { msg := "invalid connection" } } }

/-- A row as the client library decodes it for the table of the
specification's round trip: `id` an integer, `name` and `created` byte
sequences. -/
def decodedRow : Row :=
  [(str "id", .int 7), (str "name", .bytes (str "Ada")),
   (str "created", .bytes (str "2016-03-01 10:00:00")), (str "score", .float 0),
   (str "deleted", .null), (str "active", .bool true)]

/-- The two catalog rows of the specification's scenario: `shop.orders` with the
primary-key column `id` and the column `note`. -/
def scenarioRows : List tableDescriptionRow :=
  [{ Catalog := [], SchemaName := str "shop", TableName := str "orders",
     ColumnName := str "id", IsPrimary := true },
   { Catalog := [], SchemaName := str "shop", TableName := str "orders",
     ColumnName := str "note", IsPrimary := false }]

/-- A handle whose catalog query returns the rows of the scenario. -/
def scenarioDB : DB :=
  { queryx := fun _ => .ok { rows := scenarioRows.map .ok, err := none }
    preparex := fun _ => .ok { queryx := .ok { pending := [] } } }

/-- A handle whose catalog query returns one row of the scenario and then a row
that does not decode, followed by a further row. -/
def undecodableRowDB : DB :=
  { queryx := fun _ => .ok
      { rows := [.ok { Catalog := [], SchemaName := str "shop", TableName := str "orders",
                       ColumnName := str "id", IsPrimary := true },
                 .error { msg := "sql: Scan error on column index 3" },
                 .ok { Catalog := [], SchemaName := str "shop", TableName := str "orders",
                       ColumnName := str "note", IsPrimary := false }],
        err := none }
    preparex := fun _ => .ok { queryx := .ok { pending := [] } } }

/-- A handle whose catalog cursor delivers the rows of the scenario and then
reports an error. -/
def cursorErrorDB : DB :=
  { queryx := fun _ => .ok
      { rows := scenarioRows.map .ok, err := some { msg := "unexpected EOF" } }
    preparex := fun _ => .ok { queryx := .ok { pending := [] } } }

theorem consHead_length (c : Byte) (l : List GoString) (h : l ≠ []) :
    (consHead c l).length = l.length := by
  cases l with
  | nil => exact absurd rfl h
  | cons p ps => rfl

theorem stringsSplit_ne_nil (sep : Byte) (s : GoString) : stringsSplit sep s ≠ [] := by
  induction s with
  | nil => simp [stringsSplit]
  | cons c cs ih =>
    unfold stringsSplit
    split
    · simp
    · cases h : stringsSplit sep cs with
      | nil => exact absurd h ih
      | cons p ps => simp [consHead]

theorem stringsSplit_length (sep : Byte) (s : GoString) :
    (stringsSplit sep s).length = s.count sep + 1 := by
  induction s with
  | nil => simp [stringsSplit]
  | cons c cs ih =>
    unfold stringsSplit
    by_cases h : c = sep
    · subst h
      simp [ih]
    · have hc : ¬ (c == sep) = true := by simpa using h
      rw [if_neg h, consHead_length c _ (stringsSplit_ne_nil sep cs), ih,
        List.count_cons, if_neg hc]

theorem stringsSplit_no_sep (sep : Byte) (s : GoString) (h : sep ∉ s) :
    stringsSplit sep s = [s] := by
  induction s with
  | nil => rfl
  | cons c cs ih =>
    have hc : c ≠ sep := fun e => h (by simp [e])
    have hcs : sep ∉ cs := fun e => h (by simp [e])
    simp [stringsSplit, hc, ih hcs, consHead]

theorem stringsSplit_pair (sep : Byte) (k v : GoString) (hk : sep ∉ k) (hv : sep ∉ v) :
    stringsSplit sep (k ++ sep :: v) = [k, v] := by
  induction k with
  | nil => simp [stringsSplit, stringsSplit_no_sep sep v hv]
  | cons c cs ih =>
    have hc : c ≠ sep := fun e => hk (by simp [e])
    have hcs : sep ∉ cs := fun e => hk (by simp [e])
    simp [stringsSplit, hc, ih hcs, consHead]

theorem mapGet_mapSet {κ ν : Type} [DecidableEq κ] (m : GoMap κ ν) (k k' : κ) (v : ν) :
    mapGet (mapSet m k v) k' = if k = k' then some v else mapGet m k' := by
  induction m with
  | nil => simp [mapSet, mapGet]
  | cons e rest ih =>
    obtain ⟨a, b⟩ := e
    by_cases h : a = k
    · subst h
      by_cases h' : a = k' <;> simp [mapSet, mapGet, h']
    · by_cases h' : a = k'
      · subst h'
        simp [mapSet, mapGet, h, Ne.symm h]
      · simp [mapSet, mapGet, h, h', ih]

theorem mem_mapSet {κ ν : Type} [DecidableEq κ] (m : GoMap κ ν) (k : κ) (v : ν)
    (p : κ × ν) (h : p ∈ mapSet m k v) : p ∈ m ∨ p = (k, v) := by
  induction m with
  | nil => simpa [mapSet] using h
  | cons e rest ih =>
    obtain ⟨a, b⟩ := e
    by_cases hk : a = k
    · simp only [mapSet, hk, if_true, List.mem_cons] at h
      rcases h with h | h
      · exact Or.inr h
      · exact Or.inl (List.mem_cons_of_mem _ h)
    · simp only [mapSet, hk, if_false, List.mem_cons] at h
      rcases h with h | h
      · exact Or.inl (by simp [h])
      · rcases ih h with h | h
        · exact Or.inl (List.mem_cons_of_mem _ h)
        · exact Or.inr h

theorem mapGet_mem {κ ν : Type} [DecidableEq κ] (m : GoMap κ ν) (k : κ) (v : ν)
    (h : mapGet m k = some v) : (k, v) ∈ m := by
  induction m with
  | nil => simp [mapGet] at h
  | cons e rest ih =>
    obtain ⟨a, b⟩ := e
    by_cases hk : a = k
    · simp only [mapGet, hk, if_true, Option.some.injEq] at h
      simp [hk, h]
    · simp only [mapGet, hk, if_false] at h
      exact List.mem_cons_of_mem _ (ih h)

theorem mapKeys_mapSet_of_mem {κ ν : Type} [DecidableEq κ] (m : GoMap κ ν) (k : κ) (v : ν)
    (h : k ∈ mapKeys m) : mapKeys (mapSet m k v) = mapKeys m := by
  induction m with
  | nil => simp [mapKeys] at h
  | cons e rest ih =>
    obtain ⟨a, b⟩ := e
    by_cases hk : a = k
    · simp [mapSet, mapKeys, hk]
    · have : k ∈ mapKeys rest := by
        simp only [mapKeys, List.map_cons, List.mem_cons] at h
        rcases h with h | h
        · exact absurd h.symm hk
        · exact h
      have ih' := ih this
      simp only [mapKeys] at ih' ⊢
      simp [mapSet, hk, ih']

theorem mapGet_isSome_mem_keys {κ ν : Type} [DecidableEq κ] (m : GoMap κ ν) (k : κ) (v : ν)
    (h : mapGet m k = some v) : k ∈ mapKeys m := by
  induction m with
  | nil => simp [mapGet] at h
  | cons e rest ih =>
    obtain ⟨a, b⟩ := e
    by_cases hk : a = k
    · simp [mapKeys, hk]
    · simp only [mapGet, hk, if_false] at h
      have := ih h
      simp only [mapKeys] at this ⊢
      simp [this]

theorem mapGet_none_of_not_mem {κ ν : Type} [DecidableEq κ] (m : GoMap κ ν) (k : κ)
    (h : k ∉ mapKeys m) : mapGet m k = none := by
  induction m with
  | nil => rfl
  | cons e rest ih =>
    obtain ⟨a, b⟩ := e
    simp only [mapKeys, List.map_cons, List.mem_cons, not_or] at h
    have hk : ¬ a = k := fun e => h.1 e.symm
    simp only [mapGet, hk, if_false]
    exact ih h.2

/-! ## The option loop of Init -/

theorem optionStep_malformed (params : GoMap GoString GoString) (option : GoString)
    (h : option.count EQ ≠ 1) : optionStep params option = params := by
  have hl : (stringsSplit EQ option).length ≠ 2 := by
    rw [stringsSplit_length]; omega
  simp [optionStep, hl]

theorem optionStep_wellformed (params : GoMap GoString GoString) (option k v : GoString)
    (h : stringsSplit EQ option = [k, v]) : optionStep params option = mapSet params k v := by
  simp [optionStep, h]

theorem optionStep_cases (params : GoMap GoString GoString) (option : GoString) :
    optionStep params option = params ∨
    ∃ k v, option.count EQ = 1 ∧ stringsSplit EQ option = [k, v] ∧
      optionStep params option = mapSet params k v := by
  by_cases h : option.count EQ = 1
  · right
    have hl : (stringsSplit EQ option).length = 2 := by
      rw [stringsSplit_length]; omega
    match hs : stringsSplit EQ option, hl with
    | [k, v], _ => exact ⟨k, v, h, rfl, by simp [optionStep, hs]⟩
  · exact Or.inl (optionStep_malformed params option h)

theorem optionLoop_filter (options : List GoString) (params : GoMap GoString GoString) :
    optionLoop options params
      = optionLoop (options.filter (fun e => e.count EQ = 1)) params := by
  induction options generalizing params with
  | nil => rfl
  | cons e rest ih =>
    by_cases h : e.count EQ = 1
    · simp only [optionLoop, List.foldl_cons, List.filter_cons, h, decide_True, if_true] at ih ⊢
      exact ih _
    · simp only [optionLoop, List.foldl_cons, List.filter_cons, h, decide_False] at ih ⊢
      rw [optionStep_malformed params e h]
      simpa using ih params

theorem optionLoop_mem (options : List GoString) (params : GoMap GoString GoString)
    (p : GoString × GoString) (h : p ∈ optionLoop options params) :
    p ∈ params ∨ ∃ e ∈ options, e.count EQ = 1 ∧ stringsSplit EQ e = [p.1, p.2] := by
  induction options generalizing params with
  | nil => exact Or.inl h
  | cons e rest ih =>
    simp only [optionLoop, List.foldl_cons] at h
    rcases ih (optionStep params e) h with h1 | ⟨e', he', hc, hs⟩
    · rcases optionStep_cases params e with hst | ⟨k, v, hc, hs, hst⟩
      · rw [hst] at h1; exact Or.inl h1
      · rw [hst] at h1
        rcases mem_mapSet params k v p h1 with h2 | h2
        · exact Or.inl h2
        · subst h2
          exact Or.inr ⟨e, List.mem_cons_self _ _, hc, hs⟩
    · exact Or.inr ⟨e', List.mem_cons_of_mem _ he', hc, hs⟩

theorem optionLoop_keeps (post : List GoString) (params : GoMap GoString GoString)
    (k v : GoString) (hget : mapGet params k = some v)
    (hlast : ∀ e ∈ post, ∀ w, stringsSplit EQ e ≠ [k, w]) :
    mapGet (optionLoop post params) k = some v := by
  induction post generalizing params with
  | nil => exact hget
  | cons e rest ih =>
    simp only [optionLoop, List.foldl_cons]
    apply ih
    · rcases optionStep_cases params e with hst | ⟨a, b, _, hs, hst⟩
      · rw [hst]; exact hget
      · rw [hst, mapGet_mapSet]
        have hne : a ≠ k := by
          intro hak
          subst hak
          exact hlast e (List.mem_cons_self _ _) b hs
        simp [hne, hget]
    · intro e' he'
      exact hlast e' (List.mem_cons_of_mem _ he')


/-! ## Claims on Init -/

/-- C1 (as stated, refuted): in `repeatedKeyConfig` the entry `a=1` is well formed,
neither `a` nor `1` contains `=`, and yet the parameter map built by the option
loop of `Init` does not map `a` to `1`: the later entry `a=2` has overwritten it. -/
theorem C1_repeated_key_counterexample :
    (str "a" ++ EQ :: str "1") ∈ repeatedKeyConfig.ExtraOptions ∧
    EQ ∉ str "a" ∧ EQ ∉ str "1" ∧
    mapGet (initConfig repeatedKeyConfig).Params (str "a") = some (str "2") ∧
    mapGet (initConfig repeatedKeyConfig).Params (str "a") ≠ some (str "1") := by
  decide

/-- C1 (amended): for every Configuration and every entry `k ++ "=" ++ v` of
ExtraOptions in which neither `k` nor `v` contains `=`, the parameter map built
by the option loop of `Init` maps `k` to `v`, provided no later entry of the
list splits into a pair with the same key `k` (a later well-formed entry with
the same key replaces the value). -/
theorem C1_Init_incorporates_wellformed (c : Config) (pre post : List GoString)
    (k v : GoString) (hk : EQ ∉ k) (hv : EQ ∉ v)
    (hopts : c.ExtraOptions = pre ++ (k ++ EQ :: v) :: post)
    (hlast : ∀ e ∈ post, ∀ w, stringsSplit EQ e ≠ [k, w]) :
    mapGet (initConfig c).Params k = some v := by
  have hsplit := stringsSplit_pair EQ k v hk hv
  simp only [initConfig, hopts, optionLoop, List.foldl_append, List.foldl_cons]
  apply optionLoop_keeps post _ k v _ hlast
  rw [optionStep_wellformed _ _ k v hsplit, mapGet_mapSet]
  simp

/-- C1 (witness, the scenario of the specification): the options
`charset=utf8mb4` and `bogus` give the parameter `charset` = `utf8mb4`. -/
theorem C1_Init_incorporates_wellformed_witness :
    mapGet (initConfig scenarioConfig).Params (str "charset") = some (str "utf8mb4") :=
  C1_Init_incorporates_wellformed scenarioConfig [] [str "bogus"] (str "charset")
    (str "utf8mb4") (by decide) (by decide) (by decide)
    (by
      intro e he w h
      have hl := congrArg List.length h
      simp only [List.mem_singleton] at he
      subst he
      have hb : (stringsSplit EQ (str "bogus")).length = 1 := by decide
      rw [hb] at hl
      simp at hl)

/-- C2: for every Configuration, (1) an entry of ExtraOptions whose number of `=`
is not exactly one (zero, as in the empty string, or more than one) leaves the
parameter map as it was; (2) the parameter map and the outcome of `Init`,
error included, are those of the same Configuration with the malformed entries
removed, so that a malformed entry causes no error; (3) every (key, value) pair
of the parameter map built by the option loop is the split of some entry of
ExtraOptions that contains exactly one `=`. -/
theorem C2_Init_ignores_malformed (connect : MysqlConfig → Except Error DB) (m : MySQL)
    (c : Config) :
    (∀ (params : GoMap GoString GoString) (option : GoString),
        option.count EQ ≠ 1 → optionStep params option = params) ∧
    (initConfig c).Params
      = (initConfig { c with
          ExtraOptions := c.ExtraOptions.filter (fun e => e.count EQ = 1) }).Params ∧
    Init connect m c
      = Init connect m { c with
          ExtraOptions := c.ExtraOptions.filter (fun e => e.count EQ = 1) } ∧
    (∀ k v, (k, v) ∈ (initConfig c).Params →
        ∃ e ∈ c.ExtraOptions, e.count EQ = 1 ∧ stringsSplit EQ e = [k, v]) ∧
    (∀ k v, mapGet (initConfig c).Params k = some v →
        ∃ e ∈ c.ExtraOptions, e.count EQ = 1 ∧ stringsSplit EQ e = [k, v]) := by
  have hcfg : initConfig c = initConfig { c with
      ExtraOptions := c.ExtraOptions.filter (fun e => e.count EQ = 1) } := by
    simp only [initConfig]
    rw [optionLoop_filter]
  have hmem : ∀ k v, (k, v) ∈ (initConfig c).Params →
      ∃ e ∈ c.ExtraOptions, e.count EQ = 1 ∧ stringsSplit EQ e = [k, v] := by
    intro k v h
    rcases optionLoop_mem c.ExtraOptions [] (k, v) h with h | h
    · simp at h
    · exact h
  refine ⟨optionStep_malformed, congrArg MysqlConfig.Params hcfg, ?_, hmem, ?_⟩
  · simp only [Init, ← hcfg]
  · intro k v h
    exact hmem k v (mapGet_mem _ k v h)

/-- C2 (witness): in `mixedConfig` the entries `bogus`, the empty string and
`a=b=c` add nothing; the parameter map holds `charset` and the empty key of
`=v` only. -/
theorem C2_Init_ignores_malformed_witness :
    (initConfig mixedConfig).Params = [(str "charset", str "utf8mb4"), (str "", str "v")] ∧
    optionStep [] (str "a=b=c") = [] ∧ optionStep [] (str "") = [] ∧
    ∃ e ∈ mixedConfig.ExtraOptions, e.count EQ = 1 ∧
      stringsSplit EQ e = [str "charset", str "utf8mb4"] :=
  ⟨by decide,
   (C2_Init_ignores_malformed (fun _ => .error ⟨"unreachable host"⟩) ⟨none⟩ mixedConfig).1
      [] (str "a=b=c") (by decide),
   (C2_Init_ignores_malformed (fun _ => .error ⟨"unreachable host"⟩) ⟨none⟩ mixedConfig).1
      [] (str "") (by decide),
   (C2_Init_ignores_malformed (fun _ => .error ⟨"unreachable host"⟩) ⟨none⟩
      mixedConfig).2.2.2.1 (str "charset") (str "utf8mb4") (by decide)⟩


/-! ## Claims on the query text of Scan -/

theorem foldl_append_singleton {α β : Type} (f : α → β) (l : List α) (acc : List β) :
    l.foldl (fun c x => c ++ [f x]) acc = acc ++ l.map f := by
  induction l generalizing acc with
  | nil => simp
  | cons x xs ih => simp [ih]

theorem mysqlColumnsToSQL_eq (t : Table) :
    mysqlColumnsToSQL t
      = stringsJoin (t.Columns.map (fun column => str "`" ++ column ++ str "`")) (str ", ") := by
  simp only [mysqlColumnsToSQL]
  rw [foldl_append_singleton (fun column => str "`" ++ column ++ str "`")]
  simp

theorem Scan_prepare_error (db : DB) (t : Table) (err : Error)
    (h : db.preparex (scanQuery t) = .error err) :
    Scan db t = ((none, some err), [.dbPreparex (scanQuery t) false]) := by
  simp [Scan, h]

theorem Scan_execute_error (db : DB) (t : Table) (stmt : Stmt) (err : Error)
    (h : db.preparex (scanQuery t) = .ok stmt) (hq : stmt.queryx = .error err) :
    Scan db t
      = ((none, some err), [.dbPreparex (scanQuery t) true, .stmtQueryx false]) := by
  simp [Scan, h, hq]

theorem Scan_success (db : DB) (t : Table) (stmt : Stmt) (rows : Rows)
    (h : db.preparex (scanQuery t) = .ok stmt) (hq : stmt.queryx = .ok rows) :
    Scan db t
      = ((some rows, none), [.dbPreparex (scanQuery t) true, .stmtQueryx true]) := by
  simp [Scan, h, hq]

theorem Scan_preparedTexts (db : DB) (t : Table) :
    preparedTexts (Scan db t).2 = [scanQuery t] := by
  cases h : db.preparex (scanQuery t) with
  | error err => simp [Scan_prepare_error db t err h, preparedTexts]
  | ok stmt =>
    cases hq : stmt.queryx with
    | error err => simp [Scan_execute_error db t stmt err h hq, preparedTexts]
    | ok rows => simp [Scan_success db t stmt rows h hq, preparedTexts]

/-! ## Reading the query text back -/

theorem str_backtick : str "`" = [BT] := by decide

theorem str_comma_space : str ", " = [44, 32] := by decide

theorem str_from_open : str " FROM `" = str " FROM " ++ [BT] := by decide

theorem str_from : str " FROM " = [32, 70, 82, 79, 77, 32] := by decide

theorem str_dot_open : str "`.`" = [BT] ++ str "." ++ [BT] := by decide

theorem str_dot : str "." = [46] := by decide

theorem dropLeading_append (p s : GoString) : dropLeading p (p ++ s) = some s := by
  induction p with
  | nil => cases s <;> rfl
  | cons c cs ih => simp [dropLeading, ih]

theorem readQuotedBody_plain (name rest : GoString) (hname : BT ∉ name)
    (hrest : rest.head? ≠ some BT) :
    readQuotedBody (name ++ BT :: rest) = some (name, rest) := by
  induction name with
  | nil =>
    cases rest with
    | nil => simp [readQuotedBody]
    | cons d ds =>
      have hd : d ≠ BT := by simpa using hrest
      simp [readQuotedBody, hd]
  | cons c cs ih =>
    have hc : c ≠ BT := fun e => hname (by simp [e])
    have hcs : BT ∉ cs := fun e => hname (by simp [e])
    rw [List.cons_append, readQuotedBody.eq_def]
    simp only [hc, if_false, ih hcs]
    rfl

theorem readQuoted_plain (name rest : GoString) (hname : BT ∉ name)
    (hrest : rest.head? ≠ some BT) :
    readQuoted (BT :: (name ++ BT :: rest)) = some (name, rest) := by
  simp [readQuoted, readQuotedBody_plain name rest hname hrest]

theorem stringsJoin_quoted_cons (c d : GoString) (rest : List GoString) :
    stringsJoin ((c :: d :: rest).map (fun column => str "`" ++ column ++ str "`")) (str ", ")
      = BT :: (c ++ BT :: (str ", "
          ++ stringsJoin ((d :: rest).map (fun column => str "`" ++ column ++ str "`"))
              (str ", "))) := by
  simp [stringsJoin, str_backtick]

theorem readColumns_quoted (cols : List GoString) (tail : GoString) (fuel : Nat)
    (hne : cols ≠ []) (hcols : ∀ c ∈ cols, BT ∉ c) (hfuel : cols.length ≤ fuel)
    (htail : tail.head? ≠ some BT) (hsep : dropLeading (str ", ") tail = none) :
    readColumns fuel
        (stringsJoin (cols.map (fun column => str "`" ++ column ++ str "`")) (str ", ") ++ tail)
      = some (cols, tail) := by
  induction cols generalizing fuel with
  | nil => exact absurd rfl hne
  | cons c rest ih =>
    have hc : BT ∉ c := hcols c (List.mem_cons_self _ _)
    cases fuel with
    | zero => simp at hfuel
    | succ fuel =>
      cases rest with
      | nil =>
        have h1 : stringsJoin ([c].map (fun column => str "`" ++ column ++ str "`")) (str ", ")
            ++ tail = BT :: (c ++ BT :: tail) := by
          simp [stringsJoin, str_backtick]
        rw [h1]
        simp [readColumns, readQuoted_plain c tail hc htail, hsep]
      | cons d rest =>
        have hrest : ∀ x ∈ d :: rest, BT ∉ x := fun x hx => hcols x (List.mem_cons_of_mem _ hx)
        have hlen : (d :: rest).length ≤ fuel := by
          simp only [List.length_cons] at hfuel ⊢
          omega
        have ih' := ih fuel (by simp) hrest hlen
        rw [stringsJoin_quoted_cons, List.cons_append, List.append_assoc, List.cons_append,
          List.append_assoc]
        have hhead : (str ", " ++ (stringsJoin
            ((d :: rest).map (fun column => str "`" ++ column ++ str "`")) (str ", ")
              ++ tail)).head? ≠ some BT := by
          rw [str_comma_space]
          simp only [List.cons_append, List.head?_cons]
          decide
        simp only [readColumns, readQuoted_plain c _ hc hhead, dropLeading_append, ih']
        rfl

theorem stringsJoin_quoted_length (cols : List GoString) :
    cols.length
      ≤ (stringsJoin (cols.map (fun column => str "`" ++ column ++ str "`")) (str ", ")).length := by
  induction cols with
  | nil => simp
  | cons c rest ih =>
    cases rest with
    | nil => simp [stringsJoin, str_backtick]
    | cons d rest =>
      rw [stringsJoin_quoted_cons]
      simp only [List.length_cons, List.length_append] at ih ⊢
      omega

theorem readQuery_scanQuery (t : Table) (hne : t.Columns ≠ [])
    (hcols : ∀ c ∈ t.Columns, BT ∉ c) (hschema : BT ∉ t.SchemaName)
    (htable : BT ∉ t.TableName) :
    readQuery (scanQuery t) = some (t.Columns, t.SchemaName, t.TableName) := by
  have hq : scanQuery t = str "SELECT "
      ++ (stringsJoin (t.Columns.map (fun column => str "`" ++ column ++ str "`")) (str ", ")
        ++ (str " FROM " ++ (BT :: (t.SchemaName ++ BT :: (str "."
          ++ (BT :: (t.TableName ++ BT :: []))))))) := by
    simp [scanQuery, mysqlColumnsToSQL_eq, str_from_open, str_dot_open, str_backtick]
  have htail1 : (str " FROM " ++ (BT :: (t.SchemaName ++ BT :: (str "."
      ++ (BT :: (t.TableName ++ BT :: [])))))).head? ≠ some BT := by
    rw [str_from]
    simp only [List.cons_append, List.head?_cons]
    decide
  have hsep : dropLeading (str ", ") (str " FROM " ++ (BT :: (t.SchemaName ++ BT :: (str "."
      ++ (BT :: (t.TableName ++ BT :: [])))))) = none := by
    rw [str_from, str_comma_space]
    simp [dropLeading]
  have hfuel : t.Columns.length ≤
      (stringsJoin (t.Columns.map (fun column => str "`" ++ column ++ str "`")) (str ", ")
        ++ (str " FROM " ++ (BT :: (t.SchemaName ++ BT :: (str "."
          ++ (BT :: (t.TableName ++ BT :: []))))))).length := by
    have := stringsJoin_quoted_length t.Columns
    rw [List.length_append]
    omega
  have hdot : (str "." ++ (BT :: (t.TableName ++ BT :: []))).head? ≠ some BT := by
    rw [str_dot]
    simp only [List.cons_append, List.head?_cons]
    decide
  rw [hq]
  simp only [readQuery, dropLeading_append,
    readColumns_quoted t.Columns _ _ hne hcols hfuel htail1 hsep,
    readQuoted_plain t.SchemaName _ hschema hdot,
    readQuoted_plain t.TableName [] htable (by simp)]

/-- C4 (as stated, refuted): the one column of `backtickTable` contains a
backtick; the text `Scan` prepares for it reads back as the two columns `id`
and `secret`, not as the caller's column. -/
theorem C4_backtick_counterexample :
    backtickTable.Columns ≠ [] ∧
    (preparedTexts (Scan acceptingDB backtickTable).2).map readQuery
      = [some ([str "id", str "secret"], str "shop", str "orders")] ∧
    (preparedTexts (Scan acceptingDB backtickTable).2).map readQuery
      ≠ [some (backtickTable.Columns, backtickTable.SchemaName, backtickTable.TableName)] := by
  decide

/-- C4 (amended): for every non-empty column list and every schema and table
name, none of them containing a backtick, reading the text `Scan` prepares back
as backtick-quoted identifiers recovers exactly the caller's column names, in
order, the schema name and the table name; commas, spaces and reserved words in
a name do no harm. -/
theorem C4_Scan_quoting_reads_back (db : DB) (t : Table) (hne : t.Columns ≠ [])
    (hcols : ∀ c ∈ t.Columns, BT ∉ c) (hschema : BT ∉ t.SchemaName)
    (htable : BT ∉ t.TableName) :
    (preparedTexts (Scan db t).2).map readQuery
      = [some (t.Columns, t.SchemaName, t.TableName)] := by
  rw [Scan_preparedTexts, List.map_singleton, readQuery_scanQuery t hne hcols hschema htable]

/-- C4 (witness): the names of `spacedTable` hold a comma, spaces and reserved
words and are read back unchanged. -/
theorem C4_Scan_quoting_reads_back_witness :
    (preparedTexts (Scan acceptingDB spacedTable).2).map readQuery
      = [some ([str "a, b", str "select"], str "my shop", str "order")] :=
  C4_Scan_quoting_reads_back acceptingDB spacedTable (by decide) (by decide) (by decide)
    (by decide)

/-! ## Claims on the outcome of Scan -/

/-- C9 (the code at the failing input): on `lostConnectionDB` preparing succeeds
and executing fails; `Scan` returns the error and no row stream, it has made no
`stmt.Close()` call, and the statement it prepared is still open when it
returns. -/
theorem C9_Scan_leaves_statement_open :
    (Scan lostConnectionDB ordersTable).1 = (none, some { msg := "invalid connection" }) ∧
    (Scan lostConnectionDB ordersTable).2
      = [.dbPreparex (str "SELECT `id`, `note` FROM `shop`.`orders`") true, .stmtQueryx false] ∧
    Event.stmtClose ∉ (Scan lostConnectionDB ordersTable).2 ∧
    openStmts (Scan lostConnectionDB ordersTable).2 = 1 := by
  decide

/-! ## Claims on VendorSpecificCasting -/

theorem normalizeValue_idem (v : Value) : normalizeValue (normalizeValue v) = normalizeValue v := by
  cases v <;> rfl

theorem normalizeValue_not_bytes (v : Value) (b : List Byte) : normalizeValue v ≠ .bytes b := by
  cases v <;> simp [normalizeValue]

theorem castStep_mapGet (row : Row) (k k' : GoString) :
    mapGet (castStep row k) k'
      = if k = k' then (mapGet row k').map normalizeValue else mapGet row k' := by
  unfold castStep
  by_cases hk : k = k'
  · subst hk
    cases h : mapGet row k with
    | none => simp [h]
    | some v => cases v <;> simp [mapGet_mapSet, normalizeValue, h]
  · cases h : mapGet row k with
    | none => simp [hk]
    | some v => cases v <;> simp [mapGet_mapSet, hk]

theorem castStep_mapKeys (row : Row) (k : GoString) :
    mapKeys (castStep row k) = mapKeys row := by
  unfold castStep
  cases h : mapGet row k with
  | none => rfl
  | some v =>
    cases v with
    | bytes b => exact mapKeys_mapSet_of_mem row k _ (mapGet_isSome_mem_keys row k _ h)
    | _ => rfl

theorem VendorSpecificCasting_mapKeys (order : List GoString) (row : Row) :
    mapKeys (VendorSpecificCasting order row) = mapKeys row := by
  induction order generalizing row with
  | nil => rfl
  | cons k ks ih =>
    simp only [VendorSpecificCasting, List.foldl_cons] at ih ⊢
    rw [ih, castStep_mapKeys]

theorem VendorSpecificCasting_mapGet (order : List GoString) (row : Row) (k : GoString) :
    mapGet (VendorSpecificCasting order row) k
      = if k ∈ order then (mapGet row k).map normalizeValue else mapGet row k := by
  induction order generalizing row with
  | nil => simp [VendorSpecificCasting]
  | cons a ks ih =>
    simp only [VendorSpecificCasting, List.foldl_cons] at ih ⊢
    rw [ih, castStep_mapGet]
    by_cases ha : a = k
    · subst ha
      by_cases hm : a ∈ ks
      · simp [hm, Option.map_map, Function.comp_def, normalizeValue_idem]
      · simp [hm]
    · have hne : ¬ k = a := fun e => ha e.symm
      simp [ha, hne]

/-- C6: `VendorSpecificCasting` returns for every row and every order in which
the range loop visits the keys of the row (each key once): the result has the
same column names; it equals the pointwise map of the row, the value of every
key being the normalized value of the row at that key; a byte sequence is
replaced by the text of the same bytes; every other value is unchanged, so an
integer stays that integer; and no value of the result is a byte sequence. -/
theorem C6_VendorSpecificCasting_pointwise (order : List GoString) (row : Row)
    (horder : order.Perm (mapKeys row)) :
    mapKeys (VendorSpecificCasting order row) = mapKeys row ∧
    (∀ k, mapGet (VendorSpecificCasting order row) k = (mapGet row k).map normalizeValue) ∧
    (∀ k b, mapGet row k = some (.bytes b) →
      mapGet (VendorSpecificCasting order row) k = some (.text b)) ∧
    (∀ k v, mapGet row k = some v → (∀ b, v ≠ .bytes b) →
      mapGet (VendorSpecificCasting order row) k = some v) ∧
    (∀ k i, mapGet row k = some (.int i) →
      mapGet (VendorSpecificCasting order row) k = some (.int i)) ∧
    (∀ k b, mapGet (VendorSpecificCasting order row) k ≠ some (.bytes b)) := by
  have hpt : ∀ k, mapGet (VendorSpecificCasting order row) k
      = (mapGet row k).map normalizeValue := by
    intro k
    rw [VendorSpecificCasting_mapGet]
    by_cases hk : k ∈ order
    · simp [hk]
    · have : k ∉ mapKeys row := fun h => hk (horder.mem_iff.mpr h)
      simp [hk, mapGet_none_of_not_mem row k this]
  refine ⟨VendorSpecificCasting_mapKeys order row, hpt, ?_, ?_, ?_, ?_⟩
  · intro k b h
    rw [hpt, h]
    rfl
  · intro k v h hv
    rw [hpt, h]
    cases v with
    | bytes b => exact absurd rfl (hv b)
    | _ => rfl
  · intro k i h
    rw [hpt, h]
    rfl
  · intro k b h
    rw [hpt] at h
    cases hv : mapGet row k with
    | none => simp [hv] at h
    | some v =>
      simp only [hv, Option.map_some', Option.some.injEq] at h
      exact normalizeValue_not_bytes v b h

/-- C6 (witness): on `decodedRow`, visited in the reverse order of its keys,
`name` and `created` become text, `id` stays the integer 7 and the other
values stay. -/
theorem C6_VendorSpecificCasting_pointwise_witness :
    VendorSpecificCasting (mapKeys decodedRow).reverse decodedRow
      = [(str "id", .int 7), (str "name", .text (str "Ada")),
         (str "created", .text (str "2016-03-01 10:00:00")), (str "score", .float 0),
         (str "deleted", .null), (str "active", .bool true)] ∧
    mapGet (VendorSpecificCasting (mapKeys decodedRow).reverse decodedRow) (str "name")
      = some (.text (str "Ada")) ∧
    mapGet (VendorSpecificCasting (mapKeys decodedRow).reverse decodedRow) (str "id")
      = some (.int 7) :=
  ⟨by decide,
   (C6_VendorSpecificCasting_pointwise (mapKeys decodedRow).reverse decodedRow
      (List.reverse_perm _)).2.2.1 (str "name") (str "Ada") (by decide),
   (C6_VendorSpecificCasting_pointwise (mapKeys decodedRow).reverse decodedRow
      (List.reverse_perm _)).2.2.2.2.1 (str "id") 7 (by decide)⟩

/-! ## Descriptions -/

theorem mapKeys_mapSet_of_not_mem {κ ν : Type} [DecidableEq κ] (m : GoMap κ ν) (k : κ)
    (v : ν) (h : k ∉ mapKeys m) : mapKeys (mapSet m k v) = mapKeys m ++ [k] := by
  induction m with
  | nil => rfl
  | cons e rest ih =>
    obtain ⟨a, b⟩ := e
    simp only [mapKeys, List.map_cons, List.mem_cons, not_or] at h
    have hk : ¬ a = k := fun e => h.1 e.symm
    have ih' := ih h.2
    simp only [mapKeys] at ih' ⊢
    simp [mapSet, hk, ih']

theorem mapKeys_mapSet_nodup {κ ν : Type} [DecidableEq κ] (m : GoMap κ ν) (k : κ) (v : ν)
    (h : (mapKeys m).Nodup) : (mapKeys (mapSet m k v)).Nodup := by
  by_cases hk : k ∈ mapKeys m
  · rw [mapKeys_mapSet_of_mem m k v hk]
    exact h
  · rw [mapKeys_mapSet_of_not_mem m k v hk]
    exact List.Nodup.append h (List.nodup_singleton k) (by simpa using hk)

theorem columnsOf_AddColumn (d : Description) (c : Column) (schema table : GoString) :
    columnsOf (AddColumn d c) schema table
      = if c.Schema = schema ∧ c.Table = table then columnsOf d schema table ++ [c]
        else columnsOf d schema table := by
  simp only [columnsOf, AddColumn, mapGet_mapSet, Prod.mk.injEq]
  by_cases h : c.Schema = schema ∧ c.Table = table
  · obtain ⟨h1, h2⟩ := h
    subst h1 h2
    simp
  · simp [h]

theorem descriptorCount_mapSet (d : Description) (key : GoString × GoString) (c : Column) :
    descriptorCount (mapSet d key ((mapGet d key).getD [] ++ [c])) = descriptorCount d + 1 := by
  induction d with
  | nil => simp [descriptorCount, mapSet, mapGet]
  | cons e rest ih =>
    obtain ⟨a, l⟩ := e
    by_cases h : a = key
    · simp [descriptorCount, mapSet, mapGet, h]
      omega
    · simp only [descriptorCount, mapSet, mapGet, h, if_false, List.map_cons,
        List.sum_cons] at ih ⊢
      omega

theorem descriptorCount_AddColumn (d : Description) (c : Column) :
    descriptorCount (AddColumn d c) = descriptorCount d + 1 :=
  descriptorCount_mapSet d (c.Schema, c.Table) c

theorem addRows_columnsOf (rows : List tableDescriptionRow) (d : Description)
    (schema table : GoString) :
    columnsOf (addRows rows d) schema table
      = columnsOf d schema table
        ++ (rows.filter (fun r => r.SchemaName = schema ∧ r.TableName = table)).map toColumn := by
  induction rows generalizing d with
  | nil => simp [addRows]
  | cons r rest ih =>
    simp only [addRows, List.foldl_cons] at ih ⊢
    rw [ih, columnsOf_AddColumn]
    by_cases h : r.SchemaName = schema ∧ r.TableName = table
    · simp [toColumn, h, List.filter_cons]
    · simp [toColumn, h, List.filter_cons]

theorem addRows_descriptorCount (rows : List tableDescriptionRow) (d : Description) :
    descriptorCount (addRows rows d) = descriptorCount d + rows.length := by
  induction rows generalizing d with
  | nil => simp [addRows]
  | cons r rest ih =>
    simp only [addRows, List.foldl_cons] at ih ⊢
    rw [ih, descriptorCount_AddColumn, List.length_cons]
    omega

theorem addRows_nodup (rows : List tableDescriptionRow) (d : Description)
    (h : (mapKeys d).Nodup) : (mapKeys (addRows rows d)).Nodup := by
  induction rows generalizing d with
  | nil => exact h
  | cons r rest ih =>
    simp only [addRows, List.foldl_cons] at ih ⊢
    exact ih _ (mapKeys_mapSet_nodup d _ _ h)

/-! ## The loop of Describe -/

theorem describeLoop_all_decoded (res : Description) (cursorErr : Option Error)
    (rows : List tableDescriptionRow) (tr : Trace) :
    (describeLoop res cursorErr (rows.map .ok) tr).1
      = match cursorErr with
        | some err => (none, some err)
        | none => (some (addRows rows res), none) := by
  induction rows generalizing res tr with
  | nil => cases cursorErr <;> simp [describeLoop, addRows]
  | cons r rest ih =>
    simp only [List.map_cons, describeLoop, ih]
    rfl

theorem describeLoop_decode_error (res : Description) (cursorErr : Option Error)
    (pre : List tableDescriptionRow) (err : Error)
    (post : List (Except Error tableDescriptionRow)) (tr : Trace) :
    (describeLoop res cursorErr (pre.map .ok ++ .error err :: post) tr).1
      = (none, some err) := by
  induction pre generalizing res tr with
  | nil => simp [describeLoop]
  | cons r rest ih =>
    simp only [List.map_cons, List.cons_append, describeLoop]
    exact ih _ _

theorem rows_decode_cases (rows : List (Except Error tableDescriptionRow)) :
    (∃ decoded : List tableDescriptionRow, rows = decoded.map .ok) ∨
    (∃ (pre : List tableDescriptionRow) (err : Error)
        (post : List (Except Error tableDescriptionRow)),
      rows = pre.map .ok ++ .error err :: post) := by
  induction rows with
  | nil => exact Or.inl ⟨[], rfl⟩
  | cons r rest ih =>
    cases r with
    | error err => exact Or.inr ⟨[], err, rest, rfl⟩
    | ok row =>
      rcases ih with ⟨decoded, h⟩ | ⟨pre, err, post, h⟩
      · exact Or.inl ⟨row :: decoded, by simp [h]⟩
      · exact Or.inr ⟨row :: pre, err, post, by simp [h]⟩

theorem describeLoop_trace (res : Description) (cursorErr : Option Error)
    (rows : List (Except Error tableDescriptionRow)) (tr : Trace) :
    ∃ body, (describeLoop res cursorErr rows tr).2 = tr ++ body ∧
      ∀ e ∈ body, isIterationEvent e = true := by
  induction rows generalizing res tr with
  | nil =>
    cases cursorErr with
    | none => exact ⟨[.rowsNext false, .rowsErr], rfl, by decide⟩
    | some err => exact ⟨[.rowsNext false, .rowsErr], rfl, by decide⟩
  | cons r rest ih =>
    cases r with
    | error err => exact ⟨[.rowsNext true, .rowsStructScan false], rfl, by decide⟩
    | ok row =>
      obtain ⟨body, hb, hall⟩ := ih (AddColumn res (toColumn row))
        (tr ++ [.rowsNext true, .rowsStructScan true])
      refine ⟨[.rowsNext true, .rowsStructScan true] ++ body, ?_, ?_⟩
      · simp only [describeLoop, hb, List.append_assoc]
      · intro e he
        rcases List.mem_append.mp he with h | h
        · simp only [List.mem_cons, List.mem_singleton, List.not_mem_nil, or_false] at h
          rcases h with h | h <;> subst h <;> rfl
        · exact hall e h

theorem Describe_query_error (db : DB) (err : Error)
    (h : db.queryx describeQuery = .error err) :
    Describe db = ((none, some err), [.dbQueryx describeQuery false]) := by
  simp [Describe, h]

theorem Describe_query_ok (db : DB) (rows : CatalogRows)
    (h : db.queryx describeQuery = .ok rows) :
    Describe db
      = ((describeLoop NewDescription rows.err rows.rows [.dbQueryx describeQuery true]).1,
         (describeLoop NewDescription rows.err rows.rows [.dbQueryx describeQuery true]).2
           ++ [.rowsClose]) := by
  simp [Describe, h]

theorem iteration_events_open_nothing (body : Trace)
    (h : ∀ e ∈ body, isIterationEvent e = true) :
    cursorsOpened body = 0 ∧ body.count .rowsClose = 0 := by
  constructor
  · rw [cursorsOpened, List.countP_eq_zero]
    intro e he
    have := h e he
    cases e <;> simp_all [isIterationEvent]
  · rw [List.count_eq_zero]
    intro hmem
    have := h _ hmem
    simp [isIterationEvent] at this

/-! ## Claims on Describe -/

/-- C7: for every catalog result set whose rows `R` all decode and whose cursor
reports no error, `Describe` succeeds with a Description `d` that is the empty
Description with one descriptor added per row in the order returned: for every
(schema, table), `d` holds the descriptors of the rows of `R` with that schema
and table, in the order of `R`; `d` holds as many descriptors as `R` has rows
and one entry per (schema, table); and the descriptor of a row has the row's
table_schema, table_name and column_name and is marked primary key exactly when
the row's indicator is true. -/
theorem C7_Describe_one_descriptor_per_row (db : DB) (R : List tableDescriptionRow)
    (h : db.queryx describeQuery = .ok { rows := R.map .ok, err := none }) :
    ∃ d, (Describe db).1 = (some d, none) ∧
      d = addRows R NewDescription ∧
      (∀ schema table, columnsOf d schema table
        = (R.filter (fun r => r.SchemaName = schema ∧ r.TableName = table)).map toColumn) ∧
      descriptorCount d = R.length ∧
      (mapKeys d).Nodup ∧
      (∀ row : tableDescriptionRow,
        (toColumn row).Schema = row.SchemaName ∧ (toColumn row).Table = row.TableName ∧
        (toColumn row).Name = row.ColumnName ∧
        ((toColumn row).IsPrimaryKey = true ↔ row.IsPrimary = true)) := by
  refine ⟨addRows R NewDescription, ?_, rfl, ?_, ?_, ?_, ?_⟩
  · rw [Describe_query_ok db _ h]
    exact describeLoop_all_decoded NewDescription none R _
  · intro schema table
    rw [addRows_columnsOf]
    simp [columnsOf, NewDescription, mapGet]
  · rw [addRows_descriptorCount]
    simp [descriptorCount, NewDescription]
  · exact addRows_nodup R NewDescription (by simp [NewDescription, mapKeys])
  · intro row
    exact ⟨rfl, rfl, rfl, Iff.rfl⟩

/-- C7 (witness, the scenario of the specification): the rows (shop, orders, id,
primary) and (shop, orders, note, not primary) give one (shop, orders) entry
with two descriptors, `id` primary and `note` not. -/
theorem C7_Describe_one_descriptor_per_row_witness :
    (Describe scenarioDB).1
      = (some [((str "shop", str "orders"),
          [{ Name := str "id", Schema := str "shop", Table := str "orders",
             IsPrimaryKey := true },
           { Name := str "note", Schema := str "shop", Table := str "orders",
             IsPrimaryKey := false }])], none) ∧
    ∃ d, (Describe scenarioDB).1 = (some d, none) ∧
      d = addRows scenarioRows NewDescription ∧
      (∀ schema table, columnsOf d schema table
        = (scenarioRows.filter
            (fun r => r.SchemaName = schema ∧ r.TableName = table)).map toColumn) ∧
      descriptorCount d = scenarioRows.length ∧
      (mapKeys d).Nodup ∧
      (∀ row : tableDescriptionRow,
        (toColumn row).Schema = row.SchemaName ∧ (toColumn row).Table = row.TableName ∧
        (toColumn row).Name = row.ColumnName ∧
        ((toColumn row).IsPrimaryKey = true ↔ row.IsPrimary = true)) :=
  ⟨by decide, C7_Describe_one_descriptor_per_row scenarioDB scenarioRows rfl⟩

/-- C8: `Describe` never returns a partial Description. For every handle: if the
catalog query fails, or a row fails to decode after any number of decoded rows,
or the cursor reports an error after all rows were decoded, `Describe` returns
that error and no Description; it returns a Description only when the query
succeeded, every row was decoded and the cursor reported no error, and then
with no error and with one descriptor added per row; and it returns no
Description exactly when it returns an error. -/
theorem C8_Describe_no_partial_description (db : DB) :
    (∀ err, db.queryx describeQuery = .error err → (Describe db).1 = (none, some err)) ∧
    (∀ (rows : CatalogRows) (pre : List tableDescriptionRow) (err : Error)
        (post : List (Except Error tableDescriptionRow)),
      db.queryx describeQuery = .ok rows → rows.rows = pre.map .ok ++ .error err :: post →
      (Describe db).1 = (none, some err)) ∧
    (∀ (rows : CatalogRows) (decoded : List tableDescriptionRow) (err : Error),
      db.queryx describeQuery = .ok rows → rows.rows = decoded.map .ok →
      rows.err = some err → (Describe db).1 = (none, some err)) ∧
    (∀ d, (Describe db).1.1 = some d →
      (Describe db).1.2 = none ∧
      ∃ (rows : CatalogRows) (decoded : List tableDescriptionRow),
        db.queryx describeQuery = .ok rows ∧ rows.rows = decoded.map .ok ∧
        rows.err = none ∧ d = addRows decoded NewDescription) ∧
    ((Describe db).1.1 = none ↔ (Describe db).1.2 ≠ none) := by
  have hdec : ∀ (rows : CatalogRows) (pre : List tableDescriptionRow) (err : Error)
      (post : List (Except Error tableDescriptionRow)),
      db.queryx describeQuery = .ok rows → rows.rows = pre.map .ok ++ .error err :: post →
      (Describe db).1 = (none, some err) := by
    intro rows pre err post h hrows
    rw [Describe_query_ok db rows h, hrows]
    exact describeLoop_decode_error NewDescription rows.err pre err post _
  have hcur : ∀ (rows : CatalogRows) (decoded : List tableDescriptionRow) (err : Error),
      db.queryx describeQuery = .ok rows → rows.rows = decoded.map .ok →
      rows.err = some err → (Describe db).1 = (none, some err) := by
    intro rows decoded err h hrows herr
    rw [Describe_query_ok db rows h, hrows, herr]
    exact describeLoop_all_decoded NewDescription (some err) decoded _
  have hok : ∀ (rows : CatalogRows) (decoded : List tableDescriptionRow),
      db.queryx describeQuery = .ok rows → rows.rows = decoded.map .ok →
      rows.err = none → (Describe db).1 = (some (addRows decoded NewDescription), none) := by
    intro rows decoded h hrows herr
    rw [Describe_query_ok db rows h, hrows, herr]
    exact describeLoop_all_decoded NewDescription none decoded _
  refine ⟨fun err h => by rw [Describe_query_error db err h], hdec, hcur, ?_, ?_⟩
  · intro d hd
    cases h : db.queryx describeQuery with
    | error err =>
      rw [Describe_query_error db err h] at hd
      simp at hd
    | ok rows =>
      rcases rows_decode_cases rows.rows with ⟨decoded, hrows⟩ | ⟨pre, err, post, hrows⟩
      · cases herr : rows.err with
        | some err =>
          rw [hcur rows decoded err h hrows herr] at hd
          simp at hd
        | none =>
          have hres := hok rows decoded h hrows herr
          rw [hres] at hd
          simp only [Option.some.injEq] at hd
          exact ⟨by rw [hres], rows, decoded, rfl, hrows, herr, hd.symm⟩
      · rw [hdec rows pre err post h hrows] at hd
        simp at hd
  · cases h : db.queryx describeQuery with
    | error err => simp [Describe_query_error db err h]
    | ok rows =>
      rcases rows_decode_cases rows.rows with ⟨decoded, hrows⟩ | ⟨pre, err, post, hrows⟩
      · cases herr : rows.err with
        | some err => simp [hcur rows decoded err h hrows herr]
        | none => simp [hok rows decoded h hrows herr]
      · simp [hdec rows pre err post h hrows]

/-- C8 (witness): a row that does not decode after one decoded row, and a cursor
error after two decoded rows, both give the error and no Description. -/
theorem C8_Describe_no_partial_description_witness :
    (Describe undecodableRowDB).1 = (none, some { msg := "sql: Scan error on column index 3" }) ∧
    (Describe cursorErrorDB).1 = (none, some { msg := "unexpected EOF" }) :=
  ⟨(C8_Describe_no_partial_description undecodableRowDB).2.1 _
      [{ Catalog := [], SchemaName := str "shop", TableName := str "orders",
         ColumnName := str "id", IsPrimary := true }]
      { msg := "sql: Scan error on column index 3" }
      [.ok { Catalog := [], SchemaName := str "shop", TableName := str "orders",
             ColumnName := str "note", IsPrimary := false }] rfl rfl,
   (C8_Describe_no_partial_description cursorErrorDB).2.2.1 _ scenarioRows
      { msg := "unexpected EOF" } rfl rfl rfl⟩

/-- C10: `Describe` closes the catalog cursor before returning on every path on
which it was opened. If the catalog query fails, the query is the only call and
no cursor was opened. If it succeeds, whatever the rows and the cursor error
are (success, a row that fails to decode, a cursor error after the last row),
the calls are the query, then only `Next`, `StructScan` and `Err` calls, then
one `rows.Close()` as the last call before control returns; one cursor was
opened, it was closed once, and none is open at the return. -/
theorem C10_Describe_closes_cursor (db : DB) :
    (∀ err, db.queryx describeQuery = .error err →
      (Describe db).2 = [.dbQueryx describeQuery false] ∧
      cursorsOpened (Describe db).2 = 0 ∧ openCursors (Describe db).2 = 0) ∧
    (∀ rows, db.queryx describeQuery = .ok rows →
      ∃ body, (Describe db).2 = .dbQueryx describeQuery true :: (body ++ [.rowsClose]) ∧
        (∀ e ∈ body, isIterationEvent e = true) ∧
        (Describe db).2.getLast? = some .rowsClose ∧
        cursorsOpened (Describe db).2 = 1 ∧
        (Describe db).2.count .rowsClose = 1 ∧
        openCursors (Describe db).2 = 0) := by
  constructor
  · intro err h
    rw [Describe_query_error db err h]
    simp [cursorsOpened, openCursors]
  · intro rows h
    obtain ⟨body, hb, hall⟩ :=
      describeLoop_trace NewDescription rows.err rows.rows [.dbQueryx describeQuery true]
    obtain ⟨hopen, hclose⟩ := iteration_events_open_nothing body hall
    have htr : (Describe db).2 = .dbQueryx describeQuery true :: (body ++ [.rowsClose]) := by
      rw [Describe_query_ok db rows h]
      simp only [hb]
      simp
    have hopened : cursorsOpened (Describe db).2 = 1 := by
      rw [htr]
      simp only [cursorsOpened] at hopen ⊢
      simp [List.countP_cons, List.countP_append, hopen]
    have hclosed : (Describe db).2.count .rowsClose = 1 := by
      rw [htr]
      simp [List.count_cons, List.count_append, hclose]
    refine ⟨body, htr, hall, ?_, hopened, hclosed, ?_⟩
    · rw [htr, ← List.cons_append, List.getLast?_append]
      simp
    · rw [openCursors, hopened, hclosed]

/-- C10 (witness): a failed catalog query opens no cursor; when the second row
fails to decode, the cursor is closed by the last call before the return. -/
theorem C10_Describe_closes_cursor_witness :
    openCursors (Describe rejectingDB).2 = 0 ∧
    (Describe undecodableRowDB).2
      = [.dbQueryx describeQuery true, .rowsNext true, .rowsStructScan true, .rowsNext true,
         .rowsStructScan false, .rowsClose] ∧
    openCursors (Describe undecodableRowDB).2 = 0 :=
  ⟨((C10_Describe_closes_cursor rejectingDB).1 { msg := "Error 1064: syntax error" } rfl).2.2,
   rfl,
   by
    obtain ⟨_, _, _, _, _, _, h⟩ := (C10_Describe_closes_cursor undecodableRowDB).2 _ rfl
    exact h⟩

end MySQLDriver
